import Mathlib

/-!
Verification development for the ChatRobot streaming-chat core.

The definitions below are a shallow embedding of the TypeScript sources:

* `src/backend/src/services/aiService.ts`
    - the SSE line-reassembly loop of `callExternalAIServiceStream`
      (rolling buffer, newline splitting, `data: ` classification,
      `[DONE]` sentinel, embedded error abort),
    - the retry loop (`MAX_RETRIES`, `RETRY_DELAY_MS`, 5xx/no-response
      classification, `handleError`/`handleEnd` callback discipline),
    - `parseResponse` (trailing `[emotion:<word>]` tag extraction) and
      `EMOTION_KEYWORDS`.
* `src/backend/src/services/webSocketHandler.ts`
    - `sendToClient`, `flushBuffer`, `handleChunk`, `handleError`,
      `handleEnd` and the `ws.on('message')` dispatch (busy rejection,
      unknown type, malformed frame).
* `src/src/hooks/useTypingAnimator.ts`
    - the typing animator (`stopAnimation`, `startAnimation`,
      `addToQueue`, `finalizeAnimation`) and the chat handler's
      `handleWebSocketMessage` / `handleAnimationComplete`.
* `useWebSocketManager` (connection manager: `onclose` reconnect logic
  and manual `disconnect`).

Strings are modelled as `List Char`.  External collaborators are
modelled as oracle parameters: `JSON.parse` plus the field accesses the
code performs on its result become a function `JsonOracle`, and the
upstream HTTP transport becomes a map from attempt number to an
`AttemptSpec`.  JavaScript's `trim`/`toLowerCase`/`\w` are modelled on
the character ranges the code's regex can produce (the regex `\w` only
matches ASCII, so the lowercasing of a matched keyword is exact).
-/

/-! ### Character classes used by the backend (JS `trim`, `\w`, `toLowerCase`) -/

/-- Whitespace as stripped by JavaScript `String.prototype.trim`
(ASCII portion, plus NBSP). -/
def isWsChar (c : Char) : Bool :=
  c = ' ' || c = '\t' || c = '\n' || c = '\r' ||
  c = '\x0b' || c = '\x0c' || c = ' '

/-- JavaScript regex `\w`: `[A-Za-z0-9_]`. -/
def wordChar (c : Char) : Bool :=
  (decide ('a' ≤ c) && decide (c ≤ 'z')) ||
  (decide ('A' ≤ c) && decide (c ≤ 'Z')) ||
  (decide ('0' ≤ c) && decide (c ≤ '9')) ||
  c = '_'

/-- ASCII lowercasing, as JavaScript `toLowerCase` acts on `\w`-matched
characters. -/
def lowerChar (c : Char) : Char :=
  if 'A' ≤ c ∧ c ≤ 'Z' then Char.ofNat (c.toNat + 32) else c

/-- `String.prototype.trim` on a character list. -/
def trimL (l : List Char) : List Char :=
  ((l.dropWhile isWsChar).reverse.dropWhile isWsChar).reverse

/-- Lowercase a whole string. -/
def lowerL (l : List Char) : List Char := l.map lowerChar

/-! ### SSE line reassembly (buffer loop of `callExternalAIServiceStream`)

The source keeps a rolling string `buffer`; on each read it appends the
chunk and then repeatedly cuts at the first `\n`, emitting the complete
(trimmed) line and keeping the remainder:

    buffer += chunk.toString();
    while ((eolIndex = buffer.indexOf('\n')) >= 0) {
      const line = buffer.substring(0, eolIndex).trim();
      buffer = buffer.substring(eolIndex + 1); ... }
-/

/-- One character of the line-splitting fold. -/
def lineStep (c : Char) (p : List (List Char) × List Char) :
    List (List Char) × List Char :=
  if c = '\n' then ([] :: p.1, p.2)
  else
    match p.1 with
    | l :: ls => ((c :: l) :: ls, p.2)
    | [] => ([], c :: p.2)

/-- Split a character list at newline boundaries: the first component is
the list of complete lines (newline-terminated, newline removed), the
second the trailing fragment that has not seen its newline yet. -/
def splitLines : List Char → List (List Char) × List Char
  | [] => ([], [])
  | c :: rest => lineStep c (splitLines rest)

/-! ### SSE line classification and the read loop

Each complete line is classified as in the source:

    if (line.startsWith('data: ')) {
      const dataContent = line.substring(6);
      if (dataContent === '[DONE]') { continue; }
      try { const parsed = JSON.parse(dataContent);
        if (parsed.choices && parsed.choices[0]?.delta &&
            parsed.choices[0].delta.content !== undefined) onChunk(...)
        else if (parsed.error) { handleError(...); break; } }
      catch { /* log and skip */ } }

`JSON.parse` plus the field accesses are an external library; they are
modelled by an oracle `JsonOracle` mapping the raw payload characters to
the shape the code branches on. -/

/-- Outcome of `JSON.parse` + the field accesses performed on it. -/
inductive JsonLine where
  | delta (t : List Char)
  | errorObj (m : String)
  | otherJson
  | noParse
deriving DecidableEq

/-- External `JSON.parse` oracle. -/
def JsonOracle : Type := List Char → JsonLine

/-- Classification of one complete (trimmed) line. -/
inductive LineClass where
  | skip
  | doneSig
  | tok (t : List Char)
  | errSig (m : String)
deriving DecidableEq

/-- `'data: '` literal. -/
def dataLit : List Char := ['d', 'a', 't', 'a', ':', ' ']

/-- `'[DONE]'` sentinel literal. -/
def doneLit : List Char := ['[', 'D', 'O', 'N', 'E', ']']

/-- Classify one complete line, as the body of the `while` loop does. -/
def classifyLine (j : JsonOracle) (l : List Char) : LineClass :=
  if l.take 6 = dataLit then
    let c := l.drop 6
    if c = doneLit then .doneSig
    else
      match j c with
      | .delta t => .tok t
      | .errorObj m => .errSig m
      | .otherJson => .skip
      | .noParse => .skip
  else .skip

/-- Observable events of the stream reader. -/
inductive Event where
  | token (t : List Char)
  | done
  | errEvt (m : String)
deriving DecidableEq

/-- Process a batch of complete lines; the Bool records that an embedded
error object aborted the stream (`handleError` + `break` in the source),
in which case the remaining lines are discarded. -/
def processLines (j : JsonOracle) : List (List Char) → List Event × Bool
  | [] => ([], false)
  | l :: ls =>
    match classifyLine j l with
    | .skip => processLines j ls
    | .doneSig =>
      let r := processLines j ls
      (.done :: r.1, r.2)
    | .tok t =>
      let r := processLines j ls
      (.token t :: r.1, r.2)
    | .errSig m => ([.errEvt m], true)

/-- The read loop of `callExternalAIServiceStream`: each read appends to
the rolling buffer, complete lines are trimmed and classified, and an
embedded error aborts all further processing.  `buf` is the rolling
buffer carried between reads; the final partial fragment is never
parsed. -/
def sseRun (j : JsonOracle) : List Char → List (List Char) → List Event
  | _, [] => []
  | buf, c :: cs =>
    let p := splitLines (buf ++ c)
    let r := processLines j (p.1.map trimL)
    if r.2 then r.1 else r.1 ++ sseRun j p.2 cs

/-! ### `parseResponse`: trailing `[emotion:<word>]` tag extraction

Source (`aiService.ts`):

    const emotionRegex = /\x5bemotion:(\w+)\x5d$/;
    const match = fullText.trim().match(emotionRegex);
    let text = fullText.trim();
    if (match && match[1]) {
      const detectedKeyword = match[1].toLowerCase();
      if (EMOTION_KEYWORDS.includes(detectedKeyword)) {
        emotion = detectedKeyword;
        text = text.substring(0, match.index).trim(); } }
    if (!emotion) emotion = 'neutral';
    return { text, emotion };

The regex has no `i` flag, so the literal `[emotion:` must appear in
this exact lowercase form; only the captured keyword is lowercased
before the membership test.  A match ending at the end of the string is
the chars before the final `]` being a non-empty run of `\w` characters
preceded by the literal `[emotion:`; `extractTag` computes exactly
that. -/

/-- The literal `[emotion:`. -/
def tagLit : List Char := ['[', 'e', 'm', 'o', 't', 'i', 'o', 'n', ':']

/-- Find a trailing `[emotion:<word>]` tag: returns the text before the
tag and the raw (not yet lowercased) keyword. -/
def extractTag (t : List Char) : Option (List Char × List Char) :=
  match t.reverse with
  | [] => none
  | c :: rest =>
    if c = ']' then
      if rest.takeWhile wordChar = [] then none
      else if (rest.dropWhile wordChar).take 9 = tagLit.reverse then
        some (((rest.dropWhile wordChar).drop 9).reverse,
          (rest.takeWhile wordChar).reverse)
      else none
    else none

/-- `EMOTION_KEYWORDS` of `aiService.ts`. -/
def EMOTION_KEYWORDS : List (List Char) :=
  ["happy".data, "excited".data, "greeting".data, "agreement".data,
   "thinking".data, "neutral".data, "sad".data, "confused".data]

/-- The `{ text, emotion }` payload produced by the parser. -/
structure ServerPayload where
  text : List Char
  emotion : List Char
deriving DecidableEq

/-- `parseResponse` of `aiService.ts`. -/
def parseResponse (fullText : List Char) : ServerPayload :=
  let t := trimL fullText
  match extractTag t with
  | some (pre, w) =>
    if lowerL w ∈ EMOTION_KEYWORDS then ⟨trimL pre, lowerL w⟩
    else ⟨t, "neutral".data⟩
  | none => ⟨t, "neutral".data⟩

/-- A well-formed trailing tag decomposition of a (trimmed) text. -/
def TagDecomp (t pre w : List Char) : Prop :=
  t = pre ++ tagLit ++ w ++ [']'] ∧ w ≠ [] ∧ w.all wordChar = true

instance (t pre w : List Char) : Decidable (TagDecomp t pre w) := by
  unfold TagDecomp
  infer_instance

/-! ### The retry loop of `callExternalAIServiceStream`

The outer `for (attempt = 1; attempt <= MAX_RETRIES; attempt++)` loop.
One HTTP attempt either throws at the `axios.post` level (`.fail`) or
yields a response stream (`.stream` with its reads and an optional
exception thrown during async iteration).  Callbacks are funnelled
through `handleError`/`handleEnd`, which are one-shot via the
`streamClosed` flag; the same flag short-circuits stream processing of
later attempts after an abort. -/

/-- How an `axios.post` call failed (`AxiosError` shape): a response
with a status (detail already extracted from the body), no response at
all, or a request-setup error. -/
inductive FailKind where
  | httpStatus (status : Nat) (detail : String)
  | noResponse
  | setupError (m : String)
deriving DecidableEq

/-- Retry classification of the catch block: 5xx, or no response. -/
def isRetryable : FailKind → Bool
  | .httpStatus s _ => decide (500 ≤ s) && decide (s < 600)
  | .noResponse => true
  | .setupError _ => false

/-- The `errorMessage` the catch block builds for each failure kind. -/
def failMsg : FailKind → String
  | .httpStatus s d => "AI Service Stream Error (" ++ toString s ++ "): " ++ d
  | .noResponse => "No response received from AI service for stream request."
  | .setupError m => "Error setting up AI stream request: " ++ m

/-- One upstream HTTP attempt: either the request fails, or a stream
arrives, delivered as a list of reads, with an optional exception thrown
during the async iteration after those reads. -/
inductive AttemptSpec where
  | fail (k : FailKind)
  | stream (chunks : List (List Char)) (thrown : Option String)

/-- Callback events observed by the caller of
`callExternalAIServiceStream`, in order: `onChunk`, `onError`, `onEnd`. -/
inductive CbEvent where
  | cbChunk (t : List Char)
  | cbError (m : String)
  | cbEnd
deriving DecidableEq

/-- Translate stream-reader events into callbacks: token deltas are
forwarded to `onChunk`; an embedded error object triggers
`handleError`, i.e. `onError` then `onEnd` (the `[DONE]` sentinel only
`continue`s and produces no callback). -/
def cbOf : List Event → List CbEvent
  | [] => []
  | .token t :: r => .cbChunk t :: cbOf r
  | .done :: r => cbOf r
  | .errEvt m :: _ => [.cbError m, .cbEnd]

/-- Did the stream reader hit an embedded error object? -/
def hasErr : List Event → Bool
  | [] => false
  | .errEvt _ :: _ => true
  | .token _ :: r => hasErr r
  | .done :: r => hasErr r

/-- `MAX_RETRIES` of `aiService.ts`. -/
def MAX_RETRIES : Nat := 3

/-- `RETRY_DELAY_MS` of `aiService.ts`. -/
def RETRY_DELAY_MS : Nat := 1000

/-- Result of one call to the streaming client: callback events in
order, number of HTTP attempts issued, and the delays awaited (one entry
per `setTimeout(resolve, RETRY_DELAY_MS)`). -/
structure SRes where
  events : List CbEvent
  attempts : Nat
  delays : List Nat
deriving DecidableEq

/-- The retry loop, from attempt `i` with `fuel` attempts remaining and
the current `streamClosed` flag.  Mirrors the source:

* a failed `axios.post` retries (with a delay) iff retryable and
  attempts remain, else `handleError` fires and the loop breaks;
* a stream attempt whose reader finishes with no abort calls
  `handleEnd` and breaks (`streamProcessedSuccessfully`);
* an embedded error or an iteration exception calls `handleError`
  (already folded into `cbOf` for the embedded case), sets
  `streamClosed`, and the loop continues to the next attempt;
* with `streamClosed` set, a stream attempt is still issued but its
  reads are discarded at once and no callback fires. -/
def loopGo (j : JsonOracle) (env : Nat → AttemptSpec) :
    Nat → Nat → Bool → SRes
  | _, 0, _ => ⟨[], 0, []⟩
  | i, fuel + 1, closed =>
    match env i with
    | .fail k =>
      if isRetryable k && decide (i < MAX_RETRIES) then
        let r := loopGo j env (i + 1) fuel closed
        ⟨r.events, r.attempts + 1, RETRY_DELAY_MS :: r.delays⟩
      else
        ⟨if closed then [] else [.cbError (failMsg k), .cbEnd], 1, []⟩
    | .stream chunks thrown =>
      if closed then
        let r := loopGo j env (i + 1) fuel true
        ⟨r.events, r.attempts + 1, r.delays⟩
      else
        let evs := sseRun j [] chunks
        if hasErr evs then
          let r := loopGo j env (i + 1) fuel true
          ⟨cbOf evs ++ r.events, r.attempts + 1, r.delays⟩
        else
          match thrown with
          | some e =>
            let r := loopGo j env (i + 1) fuel true
            ⟨cbOf evs ++ [.cbError e, .cbEnd] ++ r.events, r.attempts + 1, r.delays⟩
          | none => ⟨cbOf evs ++ [.cbEnd], 1, []⟩

/-- The configuration-missing message. -/
def cfgMsg : String :=
  "AI Service URL or API Key is not configured in environment variables."

/-- `callExternalAIServiceStream` of `aiService.ts`: with configuration
missing, `onError` then `onEnd` fire before any attempt; otherwise the
retry loop runs with `MAX_RETRIES` attempts of fuel. -/
def callExternalAIServiceStream (cfg : Bool) (j : JsonOracle)
    (env : Nat → AttemptSpec) : SRes :=
  if cfg then loopGo j env 1 MAX_RETRIES false
  else ⟨[.cbError cfgMsg, .cbEnd], 0, []⟩

/-! ### `webSocketHandler.ts`: per-connection session handling

Per-connection state is the closure variables of
`handleWebSocketConnection` (`messageBuffer`, `isAIProcessing`,
`isConnectionClosed`) plus the transport's `readyState`.  The
`bufferTimeout` variable is only ever cleared in the current source
(nothing sets it), so it is not modelled. -/

/-- Outbound protocol messages (`ServerMessage` of the source; the
`fullResponse` variant exists in the type union but see the theorems for
whether it is ever produced). -/
inductive ServerMsg where
  | processing
  | chunk (t : List Char)
  | fullResponse (t : List Char)
  | error (m : String)
  | idle
deriving DecidableEq

/-- Per-connection state of `handleWebSocketConnection`. -/
structure WsState where
  isConnectionClosed : Bool
  readyOpen : Bool
  isAIProcessing : Bool
  messageBuffer : List Char
deriving DecidableEq

/-- `MIN_CHUNK_SIZE` of `webSocketHandler.ts`. -/
def MIN_CHUNK_SIZE : Nat := 1

/-- `sendToClient`: suppressed entirely once the connection is marked
closed; otherwise sends only if the socket is in the OPEN state.  The
result is the list of actual `ws.send` calls made. -/
def sendToClient (closed readyOpen : Bool) (m : ServerMsg) : List ServerMsg :=
  if closed then []
  else if readyOpen then [m] else []

/-- The busy-rejection message. -/
def busyMsg : String := "AI is already processing a request."

/-- Result of delivering a run of AI-service callbacks to the handler:
messages actually sent, final `messageBuffer`, final `isAIProcessing`. -/
structure DOut where
  msgs : List ServerMsg
  buf : List Char
  proc : Bool
deriving DecidableEq

/-- Deliver the AI-service callbacks through `handleChunk` /
`handleError` / `handleEnd`.  Each handler returns at once when
`isConnectionClosed`; `handleChunk` appends to the rolling
`messageBuffer` and flushes when it reaches `MIN_CHUNK_SIZE`;
`handleError` flushes, sends the error, clears `isAIProcessing` and
sends `idle`; `handleEnd` flushes, clears `isAIProcessing` and sends
`idle`. -/
def wsDeliver (closed readyOpen : Bool) :
    List Char → Bool → List CbEvent → DOut
  | buf, proc, [] => ⟨[], buf, proc⟩
  | buf, proc, .cbChunk t :: rest =>
    if closed then wsDeliver closed readyOpen buf proc rest
    else
      let buf1 := buf ++ t
      if MIN_CHUNK_SIZE ≤ buf1.length then
        let r := wsDeliver closed readyOpen [] proc rest
        ⟨sendToClient closed readyOpen (.chunk buf1) ++ r.msgs, r.buf, r.proc⟩
      else wsDeliver closed readyOpen buf1 proc rest
  | buf, proc, .cbError m :: rest =>
    if closed then wsDeliver closed readyOpen buf proc rest
    else
      let flushMsgs := if buf.length > 0 then sendToClient closed readyOpen (.chunk buf) else []
      let r := wsDeliver closed readyOpen [] false rest
      ⟨flushMsgs ++ sendToClient closed readyOpen (.error ("AI Error: " ++ m)) ++
        sendToClient closed readyOpen .idle ++ r.msgs, r.buf, r.proc⟩
  | buf, proc, .cbEnd :: rest =>
    if closed then wsDeliver closed readyOpen buf proc rest
    else
      let flushMsgs := if buf.length > 0 then sendToClient closed readyOpen (.chunk buf) else []
      let r := wsDeliver closed readyOpen [] false rest
      ⟨flushMsgs ++ sendToClient closed readyOpen .idle ++ r.msgs, r.buf, r.proc⟩

/-- Inbound frames, after `JSON.parse` of the raw WebSocket message:
a chat request, a frame with an unknown `type`, or an unparsable frame
(the catch block).  The chat payload fields only feed the upstream
prompt, which the model abstracts behind `env`, so they are not carried
here. -/
inductive ClientMsg where
  | chat
  | unknownType (t : String)
  | malformed

/-- The `ws.on('message')` dispatch of `handleWebSocketConnection`.
Returns the new per-connection state, the messages actually sent, and
the number of upstream HTTP attempts issued while handling the frame. -/
def wsOnMessage (cfg : Bool) (j : JsonOracle) (env : Nat → AttemptSpec)
    (st : WsState) : ClientMsg → WsState × List ServerMsg × Nat
  | .chat =>
    if st.isAIProcessing then
      (st, sendToClient st.isConnectionClosed st.readyOpen (.error busyMsg), 0)
    else
      let m0 := sendToClient st.isConnectionClosed st.readyOpen .processing
      let res := callExternalAIServiceStream cfg j env
      let d := wsDeliver st.isConnectionClosed st.readyOpen st.messageBuffer true res.events
      ({ st with isAIProcessing := d.proc, messageBuffer := d.buf },
        m0 ++ d.msgs, res.attempts)
  | .unknownType t =>
    (st, sendToClient st.isConnectionClosed st.readyOpen
      (.error ("Unknown message type: " ++ t)), 0)
  | .malformed =>
    let m1 := sendToClient st.isConnectionClosed st.readyOpen
      (.error "Invalid message format received.")
    if st.isAIProcessing then
      ({ st with isAIProcessing := false },
        m1 ++ sendToClient st.isConnectionClosed st.readyOpen .idle, 0)
    else (st, m1, 0)

/-- The `ws.on('close')` handler: marks the connection closed. -/
def wsOnClose (st : WsState) : WsState :=
  { st with isConnectionClosed := true }

/-! ### `useWebSocketManager`: connection manager

    ws.current.onclose = (event) => {
      setIsConnected(false); ws.current = null; onClose?.(event);
      if (event.code !== 1000 && event.code !== 1005) {
        reconnectTimeoutRef.current = setTimeout(connect, 5000); } };

    const disconnect = () => {
      if (reconnectTimeoutRef.current) { clearTimeout(...); ... }
      if (ws.current) { ws.current.close(1000, "Manual disconnection"); ... }
      setIsConnected(false); };
-/

/-- State owned by `useWebSocketManager`. -/
structure MgrState where
  wsPresent : Bool
  isConnected : Bool
  reconnectScheduled : Bool
deriving DecidableEq

/-- The reconnect delay passed to `setTimeout` in the `onclose`
handler. -/
def RECONNECT_DELAY_MS : Nat := 5000

/-- The `onclose` handler, given the close event's code.  The second
component lists the delays of the reconnect attempts scheduled by this
event (one `setTimeout` or none). -/
def mgrOnClose (code : Nat) (st : MgrState) : MgrState × List Nat :=
  let st1 := { st with isConnected := false, wsPresent := false }
  if code ≠ 1000 ∧ code ≠ 1005 then
    ({ st1 with reconnectScheduled := true }, [RECONNECT_DELAY_MS])
  else (st1, [])

/-- Manual `disconnect`: clears any pending reconnect timer and closes
the socket with code 1000 ("Manual disconnection"); the second component
is the close code handed to the transport, if a socket was present. -/
def mgrDisconnect (st : MgrState) : MgrState × Option Nat :=
  ({ st with reconnectScheduled := false, wsPresent := false, isConnected := false },
    if st.wsPresent then some 1000 else none)

/-! ### Client playback: `useTypingAnimator` + `useChatHandler`

State split across the two hooks: `currentBotMessageId`,
`accumulatedBotResponse`, `isStreamCompleteRef`, `isBotProcessing`
(chat handler) and `characterQueueRef`, `animationTimeoutRef`,
`finalizationTimeoutRef` (typing animator); `chatLog` is the Zustand
store's message list, as touched by `addChatMessage` /
`updateMessageText`. -/

/-- Client playback state. -/
structure PlaybackState where
  messageId : Option Nat
  accumulated : List Char
  isStreamComplete : Bool
  isBotProcessing : Bool
  queue : List Char
  animScheduled : Bool
  finalScheduled : Bool
  chatLog : List (Nat × List Char)
deriving DecidableEq

/-- `stopAnimation` of `useTypingAnimator`: clears the animation and
finalization timeouts (and nothing else). -/
def stopAnimation (st : PlaybackState) : PlaybackState :=
  { st with animScheduled := false, finalScheduled := false }

/-- `startAnimation`: `stopAnimation` then schedule the loop. -/
def startAnimation (st : PlaybackState) : PlaybackState :=
  { stopAnimation st with animScheduled := true }

/-- `addToQueue`: push the characters. -/
def addToQueue (cs : List Char) (st : PlaybackState) : PlaybackState :=
  { st with queue := st.queue ++ cs }

/-- `updateMessageText` of the store: append text to the message with
the given id. -/
def updateMessageText (log : List (Nat × List Char)) (mid : Nat)
    (txt : List Char) : List (Nat × List Char) :=
  log.map fun e => if e.1 = mid then (e.1, e.2 ++ txt) else e

/-- Side effects of turn completion. -/
inductive ClientAction where
  | speak (t : List Char)
  | emote (e : Nat)
deriving DecidableEq

/-- `handleAnimationComplete` of `useChatHandler`: trigger the emote
found in the final text (external util, modelled by the `emoteOf`
oracle), speak the final text, clear the per-message state, and reset
`isBotProcessing`. -/
def handleAnimationComplete (emoteOf : List Char → Option Nat)
    (finalText : List Char) (st : PlaybackState) :
    PlaybackState × List ClientAction :=
  let acts :=
    (match emoteOf finalText with
     | some e => [ClientAction.emote e]
     | none => []) ++ [ClientAction.speak finalText]
  ({ st with messageId := none, accumulated := [], isBotProcessing := false }, acts)

/-- `finalizeAnimation` of `useTypingAnimator`: the delayed
finalization check.  JavaScript truthiness: the callback fires only when
`finalMessageId` is non-null *and* `finalAccumulatedResponse` is a
non-empty string; afterwards everything is stopped either way. -/
def finalizeAnimation (emoteOf : List Char → Option Nat)
    (st : PlaybackState) : PlaybackState × List ClientAction :=
  match st.messageId with
  | some _ =>
    if st.accumulated ≠ [] then
      let r := handleAnimationComplete emoteOf st.accumulated st
      (stopAnimation r.1, r.2)
    else (stopAnimation st, [])
  | none => (stopAnimation st, [])

/-- `handleWebSocketMessage` of `useChatHandler` (the version wired to
this typing animator): the client's reaction to one inbound protocol
message.  `fresh` is the id generated for a new bot message
(`msg-${Date.now()}-${Math.random()}` in the source). -/
def handleWebSocketMessage (fresh : Nat) (st : PlaybackState) :
    ServerMsg → PlaybackState
  | .processing =>
    let st1 :=
      { st with isBotProcessing := true, isStreamComplete := false, accumulated := [] }
    let st2 := stopAnimation st1
    let st3 :=
      { st2 with chatLog := st2.chatLog ++ [(fresh, [])], messageId := some fresh }
    startAnimation st3
  | .chunk t =>
    match st.messageId with
    | some _ => addToQueue t { st with accumulated := st.accumulated ++ t }
    | none => st
  | .fullResponse _ => st
  | .idle => { st with isStreamComplete := true }
  | .error m =>
    let st1 := { stopAnimation st with isBotProcessing := false }
    let st2 :=
      match st1.messageId with
      | some mid =>
        { st1 with chatLog := updateMessageText st1.chatLog mid (("Error: " ++ m).data) }
      | none =>
        { st1 with chatLog := st1.chatLog ++ [(fresh, ("Server Error: " ++ m).data)] }
    { st2 with messageId := none, accumulated := [] }

/-! ### Message predicates and concrete sample environments -/

/-- Is this an `idle` frame? -/
def isIdleMsg : ServerMsg → Bool
  | .idle => true
  | _ => false

/-- Is this an `error` frame? -/
def isErrorMsg : ServerMsg → Bool
  | .error _ => true
  | _ => false

/-- Is this a `fullResponse` frame? -/
def isFullMsg : ServerMsg → Bool
  | .fullResponse _ => true
  | _ => false

/-- Is this a `chunk` frame? -/
def isChunkMsg : ServerMsg → Bool
  | .chunk _ => true
  | _ => false

/-- A JSON oracle under which no data line parses. -/
def jNull : JsonOracle := fun _ => JsonLine.noParse

/-- A JSON oracle mapping payload `E` to an embedded error object and
everything else to a token delta. -/
def jBoom : JsonOracle := fun c =>
  if c = ['E'] then JsonLine.errorObj "boom" else JsonLine.delta ['t', 'k']

/-- Environment: every attempt is rejected with HTTP 400. -/
def envHttp400 : Nat → AttemptSpec :=
  fun _ => .fail (.httpStatus 400 "Bad Request")

/-- Environment: every attempt is rejected with HTTP 503. -/
def envHttp503 : Nat → AttemptSpec :=
  fun _ => .fail (.httpStatus 503 "unavailable")

/-- Environment: every attempt yields an immediately-ending stream. -/
def envOkEmpty : Nat → AttemptSpec := fun _ => .stream [] none

/-- Environment: every attempt yields a stream whose data carries one
token and then an embedded error object (under `jBoom`). -/
def envEmbeddedErr : Nat → AttemptSpec :=
  fun _ => .stream ["data: x\ndata: E\n".data] none

/-- When the lines component is empty the whole input is still buffered. -/
theorem splitLines_nil_snd (x : List Char) (h : (splitLines x).1 = []) :
    (splitLines x).2 = x := by
  induction x with
  | nil => rfl
  | cons c x ih =>
    by_cases hc : c = '\n'
    · simp [splitLines, lineStep, hc] at h
    · simp only [splitLines, lineStep, if_neg hc] at h ⊢
      cases hp : (splitLines x).1 with
      | nil => simp [hp, ih hp]
      | cons l ls => simp [hp] at h

theorem splitLines_append (x y : List Char) :
    splitLines (x ++ y) =
      ((splitLines x).1 ++ (splitLines ((splitLines x).2 ++ y)).1,
       (splitLines ((splitLines x).2 ++ y)).2) := by
  induction x with
  | nil => simp [splitLines]
  | cons c x ih =>
    show splitLines (c :: (x ++ y)) = _
    by_cases hc : c = '\n'
    · simp only [splitLines, lineStep, if_pos hc, ih]
      simp
    · cases hp : (splitLines x).1 with
      | nil =>
        have h2 := splitLines_nil_snd x hp
        have hcx : splitLines (c :: x) = ([], c :: x) := by
          simp [splitLines, lineStep, if_neg hc, hp, h2]
        rw [hcx]
        simp
      | cons l ls =>
        have hcx : splitLines (c :: x) = ((c :: l) :: ls, (splitLines x).2) := by
          simp [splitLines, lineStep, if_neg hc, hp]
        rw [hcx]
        simp only [splitLines, lineStep, ih, hp, if_neg hc, List.cons_append]

/-- If the input has no newline, no line is produced: a partial line is
never parsed before its terminating newline arrives. -/
theorem splitLines_no_newline (x : List Char) (h : '\n' ∉ x) :
    splitLines x = ([], x) := by
  induction x with
  | nil => rfl
  | cons c x ih =>
    simp only [List.mem_cons, not_or] at h
    have hc : ¬c = '\n' := fun hc => h.1 hc.symm
    simp [splitLines, ih h.2, lineStep, if_neg hc]

theorem processLines_append (j : JsonOracle) (a b : List (List Char)) :
    processLines j (a ++ b) =
      if (processLines j a).2 then processLines j a
      else ((processLines j a).1 ++ (processLines j b).1, (processLines j b).2) := by
  induction a with
  | nil => simp [processLines]
  | cons l ls ih =>
    simp only [List.cons_append, processLines, List.append_eq]
    cases classifyLine j l with
    | skip => exact ih
    | doneSig =>
      rw [ih]
      by_cases h : (processLines j ls).2 <;> simp [h]
    | tok t =>
      rw [ih]
      by_cases h : (processLines j ls).2 <;> simp [h]
    | errSig m => simp

theorem sseRun_nil (j : JsonOracle) (buf : List Char) : sseRun j buf [] = [] := rfl

theorem sseRun_cons (j : JsonOracle) (buf c : List Char) (cs : List (List Char)) :
    sseRun j buf (c :: cs) =
      (if (processLines j ((splitLines (buf ++ c)).1.map trimL)).2 then
        (processLines j ((splitLines (buf ++ c)).1.map trimL)).1
      else
        (processLines j ((splitLines (buf ++ c)).1.map trimL)).1 ++
          sseRun j (splitLines (buf ++ c)).2 cs) := rfl

/-- Chunk-boundary independence of the read loop: delivering the reads
one by one produces the same event sequence as delivering their
concatenation in a single read. -/
theorem sseRun_flatten (j : JsonOracle) :
    ∀ (cs : List (List Char)) (buf c : List Char),
    sseRun j buf (c :: cs) = sseRun j buf [c ++ cs.flatten] := by
  intro cs
  induction cs with
  | nil =>
    intro buf c
    simp
  | cons c2 cs ih =>
    intro buf c
    have hx : buf ++ (c ++ (c2 :: cs).flatten) = (buf ++ c) ++ (c2 ++ cs.flatten) := by
      simp
    rw [sseRun_cons, ih]
    conv_rhs => rw [sseRun_cons]
    rw [hx, splitLines_append (buf ++ c) (c2 ++ cs.flatten), List.map_append,
      processLines_append, sseRun_cons]
    simp only [sseRun_nil]
    by_cases hr : (processLines j ((splitLines (buf ++ c)).1.map trimL)).2
    · simp [hr]
    · by_cases hs :
          (processLines j
            ((splitLines ((splitLines (buf ++ c)).2 ++ (c2 ++ cs.flatten))).1.map trimL)).2
      · simp [hr, hs]
      · simp [hr, hs]

theorem takeWhile_all_append (p : Char → Bool) (xs : List Char) (y : Char)
    (ys : List Char) (hxs : xs.all p = true) (hy : p y = false) :
    (xs ++ y :: ys).takeWhile p = xs ∧ (xs ++ y :: ys).dropWhile p = y :: ys := by
  induction xs with
  | nil => simp [List.takeWhile, List.dropWhile, hy]
  | cons a xs ih =>
    simp only [List.all_cons, Bool.and_eq_true] at hxs
    have := ih hxs.2
    simp [List.takeWhile, List.dropWhile, hxs.1, this.1, this.2]

theorem take_append_self (xs ys : List Char) : (xs ++ ys).take xs.length = xs := by
  induction xs with
  | nil => simp
  | cons a xs ih => simp [ih]

theorem drop_append_self (xs ys : List Char) : (xs ++ ys).drop xs.length = ys := by
  induction xs with
  | nil => simp
  | cons a xs ih => simp [ih]

/-- Completeness: a well-formed trailing tag is found, and the regex
match starts exactly where the decomposition says. -/
theorem extractTag_eq_of_decomp (t pre w : List Char) (h : TagDecomp t pre w) :
    extractTag t = some (pre, w) := by
  obtain ⟨ht, hw, hall⟩ := h
  have hrev : t.reverse = ']' :: (w.reverse ++ (tagLit.reverse ++ pre.reverse)) := by
    subst ht
    simp [tagLit]
  have hallrev : w.reverse.all wordChar = true := by
    simpa using hall
  have hcolon : wordChar ':' = false := by decide
  have htr : tagLit.reverse ++ pre.reverse =
      ':' :: (tagLit.reverse.tail ++ pre.reverse) := by
    simp [tagLit]
  have hsplit := takeWhile_all_append wordChar w.reverse ':'
    (tagLit.reverse.tail ++ pre.reverse) hallrev hcolon
  have htake : List.takeWhile wordChar (w.reverse ++ (tagLit.reverse ++ pre.reverse)) =
      w.reverse := by
    rw [htr]
    exact hsplit.1
  have hdrop : List.dropWhile wordChar (w.reverse ++ (tagLit.reverse ++ pre.reverse)) =
      tagLit.reverse ++ pre.reverse := by
    rw [htr]
    exact hsplit.2
  have h9 : tagLit.reverse.length = 9 := by decide
  have htk : (tagLit.reverse ++ pre.reverse).take 9 = tagLit.reverse := by
    rw [← h9]
    exact take_append_self _ _
  have hdp : (tagLit.reverse ++ pre.reverse).drop 9 = pre.reverse := by
    rw [← h9]
    exact drop_append_self _ _
  have hwnil : ¬(w.reverse = []) := by simpa using hw
  simp only [extractTag]
  rw [hrev]
  simp [htake, hdrop, htk, hdp, hwnil]

theorem all_takeWhile (p : Char → Bool) (l : List Char) :
    (l.takeWhile p).all p = true := by
  induction l with
  | nil => rfl
  | cons a l ih =>
    by_cases ha : p a <;> simp [List.takeWhile, ha, ih]

/-- Soundness: whatever `extractTag` finds really is a trailing
`[emotion:<word>]` tag. -/
theorem extractTag_sound (t pre w : List Char)
    (h : extractTag t = some (pre, w)) : TagDecomp t pre w := by
  unfold extractTag at h
  cases hrev : t.reverse with
  | nil => rw [hrev] at h; simp at h
  | cons c rest =>
    rw [hrev] at h
    by_cases hc : c = ']'
    · subst hc
      dsimp only at h
      rw [if_pos rfl] at h
      by_cases h1 : rest.takeWhile wordChar = []
      · simp [h1] at h
      · by_cases h2 : (rest.dropWhile wordChar).take 9 = tagLit.reverse
        · rw [if_neg h1, if_pos h2] at h
          have hrest : rest = rest.takeWhile wordChar ++
              (tagLit.reverse ++ (rest.dropWhile wordChar).drop 9) := by
            conv_lhs => rw [← List.takeWhile_append_dropWhile (p := wordChar) (l := rest)]
            rw [← h2]
            simp
          obtain ⟨rfl, rfl⟩ : ((rest.dropWhile wordChar).drop 9).reverse = pre ∧
              (rest.takeWhile wordChar).reverse = w := by
            have h' := Option.some.inj h
            exact ⟨congrArg Prod.fst h', congrArg Prod.snd h'⟩
          refine ⟨?_, ?_, ?_⟩
          · have htrev : t = rest.reverse ++ [']'] := by
              have h4 := congrArg List.reverse hrev
              simp only [List.reverse_reverse, List.reverse_cons] at h4
              exact h4
            conv_lhs => rw [htrev, hrest]
            simp [tagLit]
          · simp [h1]
          · simp [all_takeWhile]
        · simp [h1, h2] at h
    · simp [hc] at h

/-! ### Structural lemmas about the retry loop -/

theorem cbOf_no_err (evs : List Event) (h : hasErr evs = false) :
    ∃ ts : List (List Char), cbOf evs = ts.map CbEvent.cbChunk := by
  induction evs with
  | nil => exact ⟨[], rfl⟩
  | cons e r ih =>
    cases e with
    | token t =>
      obtain ⟨ts, hts⟩ := ih (by simpa [hasErr] using h)
      exact ⟨t :: ts, by simp [cbOf, hts]⟩
    | done => exact ih (by simpa [hasErr] using h)
    | errEvt m => simp [hasErr] at h

theorem cbOf_err (evs : List Event) (h : hasErr evs = true) :
    ∃ (ts : List (List Char)) (m : String),
      cbOf evs = ts.map CbEvent.cbChunk ++ [CbEvent.cbError m, CbEvent.cbEnd] := by
  induction evs with
  | nil => simp [hasErr] at h
  | cons e r ih =>
    cases e with
    | token t =>
      obtain ⟨ts, m, hts⟩ := ih (by simpa [hasErr] using h)
      exact ⟨t :: ts, m, by simp [cbOf, hts]⟩
    | done =>
      obtain ⟨ts, m, hts⟩ := ih (by simpa [hasErr] using h)
      exact ⟨ts, m, by simp [cbOf, hts]⟩
    | errEvt m => exact ⟨[], m, by simp [cbOf]⟩

theorem loopGo_closed_events (j : JsonOracle) (env : Nat → AttemptSpec) :
    ∀ (fuel i : Nat), (loopGo j env i fuel true).events = [] := by
  intro fuel
  induction fuel with
  | zero => intro i; rfl
  | succ fuel ih =>
    intro i
    cases henv : env i with
    | fail k =>
      by_cases hb : (isRetryable k && decide (i < MAX_RETRIES)) = true <;>
        simp [loopGo, henv, hb, ih]
    | stream chunks thrown => simp [loopGo, henv, ih]

theorem loopGo_attempts_le (j : JsonOracle) (env : Nat → AttemptSpec) :
    ∀ (fuel i : Nat) (closed : Bool), (loopGo j env i fuel closed).attempts ≤ fuel := by
  intro fuel
  induction fuel with
  | zero => intro i closed; exact Nat.le_refl 0
  | succ fuel ih =>
    intro i closed
    cases henv : env i with
    | fail k =>
      by_cases hb : (isRetryable k && decide (i < MAX_RETRIES)) = true
      · simpa [loopGo, henv, hb] using Nat.succ_le_succ (ih (i + 1) closed)
      · simp [loopGo, henv, hb]
    | stream chunks thrown =>
      cases closed with
      | true => simpa [loopGo, henv] using Nat.succ_le_succ (ih (i + 1) true)
      | false =>
        by_cases he : hasErr (sseRun j [] chunks) = true
        · simpa [loopGo, henv, he] using Nat.succ_le_succ (ih (i + 1) true)
        · cases thrown with
          | some e => simpa [loopGo, henv, he] using Nat.succ_le_succ (ih (i + 1) true)
          | none =>
            simp [loopGo, henv, he]

theorem loopGo_delays_all (j : JsonOracle) (env : Nat → AttemptSpec) :
    ∀ (fuel i : Nat) (closed : Bool),
    (loopGo j env i fuel closed).delays.all (fun d => d = RETRY_DELAY_MS) = true := by
  intro fuel
  induction fuel with
  | zero => intro i closed; rfl
  | succ fuel ih =>
    intro i closed
    cases henv : env i with
    | fail k =>
      by_cases hb : (isRetryable k && decide (i < MAX_RETRIES)) = true <;>
        simp [loopGo, henv, hb, ih]
    | stream chunks thrown =>
      cases closed with
      | true => simp [loopGo, henv, ih]
      | false =>
        by_cases he : hasErr (sseRun j [] chunks) = true
        · simp [loopGo, henv, he, ih]
        · cases thrown with
          | some e => simp [loopGo, henv, he, ih]
          | none => simp [loopGo, henv, he]

theorem loopGo_shape (j : JsonOracle) (env : Nat → AttemptSpec) :
    ∀ (fuel i : Nat), 1 ≤ fuel → MAX_RETRIES < i + fuel →
    (∃ ts : List (List Char),
      (loopGo j env i fuel false).events = ts.map CbEvent.cbChunk ++ [CbEvent.cbEnd]) ∨
    (∃ (ts : List (List Char)) (m : String),
      (loopGo j env i fuel false).events =
        ts.map CbEvent.cbChunk ++ [CbEvent.cbError m, CbEvent.cbEnd]) := by
  intro fuel
  induction fuel with
  | zero => intro i h1 _; omega
  | succ fuel ih =>
    intro i _ hlt
    cases henv : env i with
    | fail k =>
      by_cases hb : (isRetryable k && decide (i < MAX_RETRIES)) = true
      · have hi : i < MAX_RETRIES := by
          have := hb
          simp only [Bool.and_eq_true, decide_eq_true_eq] at this
          exact this.2
        have h1 : 1 ≤ fuel := by omega
        have h2 : MAX_RETRIES < (i + 1) + fuel := by omega
        rcases ih (i + 1) h1 h2 with ⟨ts, hts⟩ | ⟨ts, m, hts⟩
        · exact Or.inl ⟨ts, by simpa [loopGo, henv, hb] using hts⟩
        · exact Or.inr ⟨ts, m, by simpa [loopGo, henv, hb] using hts⟩
      · exact Or.inr ⟨[], failMsg k, by simp [loopGo, henv, hb]⟩
    | stream chunks thrown =>
      by_cases he : hasErr (sseRun j [] chunks) = true
      · obtain ⟨ts, m, hts⟩ := cbOf_err _ he
        exact Or.inr ⟨ts, m,
          by simp [loopGo, henv, he, hts, loopGo_closed_events]⟩
      · cases thrown with
        | some e =>
          obtain ⟨ts, hts⟩ := cbOf_no_err _ (by simpa using he)
          exact Or.inr ⟨ts, e,
            by simp [loopGo, henv, he, hts, loopGo_closed_events]⟩
        | none =>
          obtain ⟨ts, hts⟩ := cbOf_no_err _ (by simpa using he)
          exact Or.inl ⟨ts, by simp [loopGo, henv, he, hts]⟩

theorem callStream_shape (cfg : Bool) (j : JsonOracle) (env : Nat → AttemptSpec) :
    (∃ ts : List (List Char),
      (callExternalAIServiceStream cfg j env).events =
        ts.map CbEvent.cbChunk ++ [CbEvent.cbEnd]) ∨
    (∃ (ts : List (List Char)) (m : String),
      (callExternalAIServiceStream cfg j env).events =
        ts.map CbEvent.cbChunk ++ [CbEvent.cbError m, CbEvent.cbEnd]) := by
  cases cfg with
  | false => exact Or.inr ⟨[], cfgMsg, rfl⟩
  | true =>
    simpa [callExternalAIServiceStream] using
      loopGo_shape j env MAX_RETRIES 1 (by decide) (by decide)

/-! ### Structural lemmas about the session handler -/

theorem wsDeliver_closed (ready : Bool) :
    ∀ (evs : List CbEvent) (buf : List Char) (proc : Bool),
    wsDeliver true ready buf proc evs = ⟨[], buf, proc⟩ := by
  intro evs
  induction evs with
  | nil => intro buf proc; rfl
  | cons e rest ih =>
    intro buf proc
    cases e <;> simp [wsDeliver, ih]

theorem wsDeliver_chunks (ts : List (List Char)) :
    ∀ (buf : List Char) (proc : Bool),
    ∃ (ms : List ServerMsg) (buf2 : List Char),
      wsDeliver false true buf proc (ts.map CbEvent.cbChunk) = ⟨ms, buf2, proc⟩ ∧
      ms.all isChunkMsg = true := by
  induction ts with
  | nil => intro buf proc; exact ⟨[], buf, rfl, rfl⟩
  | cons t ts ih =>
    intro buf proc
    have hunf : wsDeliver false true buf proc ((t :: ts).map CbEvent.cbChunk) =
        (if MIN_CHUNK_SIZE ≤ (buf ++ t).length then
          ⟨sendToClient false true (ServerMsg.chunk (buf ++ t)) ++
            (wsDeliver false true [] proc (ts.map CbEvent.cbChunk)).msgs,
           (wsDeliver false true [] proc (ts.map CbEvent.cbChunk)).buf,
           (wsDeliver false true [] proc (ts.map CbEvent.cbChunk)).proc⟩
        else wsDeliver false true (buf ++ t) proc (ts.map CbEvent.cbChunk)) := rfl
    rw [hunf]
    by_cases hlen : MIN_CHUNK_SIZE ≤ (buf ++ t).length
    · rw [if_pos hlen]
      obtain ⟨ms, buf2, hms, hall⟩ := ih [] proc
      rw [hms]
      refine ⟨ServerMsg.chunk (buf ++ t) :: ms, buf2, rfl, ?_⟩
      simp [List.all_cons, hall, isChunkMsg]
    · rw [if_neg hlen]
      exact ih (buf ++ t) proc

theorem wsDeliver_end (buf : List Char) (proc : Bool) :
    wsDeliver false true buf proc [CbEvent.cbEnd] =
      ⟨(if buf.length > 0 then [ServerMsg.chunk buf] else []) ++ [ServerMsg.idle],
        [], false⟩ := by
  by_cases h : buf.length > 0 <;> simp [wsDeliver, sendToClient, h]

theorem wsDeliver_err_end (m : String) (buf : List Char) (proc : Bool) :
    wsDeliver false true buf proc [CbEvent.cbError m, CbEvent.cbEnd] =
      ⟨(if buf.length > 0 then [ServerMsg.chunk buf] else []) ++
        [ServerMsg.error ("AI Error: " ++ m), ServerMsg.idle, ServerMsg.idle],
        [], false⟩ := by
  by_cases h : buf.length > 0 <;> simp [wsDeliver, sendToClient, h]

theorem wsDeliver_append (l1 l2 : List CbEvent) :
    ∀ (buf : List Char) (proc : Bool),
    wsDeliver false true buf proc (l1 ++ l2) =
      ⟨(wsDeliver false true buf proc l1).msgs ++
        (wsDeliver false true (wsDeliver false true buf proc l1).buf
          (wsDeliver false true buf proc l1).proc l2).msgs,
       (wsDeliver false true (wsDeliver false true buf proc l1).buf
          (wsDeliver false true buf proc l1).proc l2).buf,
       (wsDeliver false true (wsDeliver false true buf proc l1).buf
          (wsDeliver false true buf proc l1).proc l2).proc⟩ := by
  induction l1 with
  | nil => intro buf proc; simp [wsDeliver]
  | cons e rest ih =>
    intro buf proc
    cases e with
    | cbChunk t =>
      have hunf1 : wsDeliver false true buf proc (CbEvent.cbChunk t :: (rest ++ l2)) =
          (if MIN_CHUNK_SIZE ≤ (buf ++ t).length then
            ⟨sendToClient false true (ServerMsg.chunk (buf ++ t)) ++
              (wsDeliver false true [] proc (rest ++ l2)).msgs,
             (wsDeliver false true [] proc (rest ++ l2)).buf,
             (wsDeliver false true [] proc (rest ++ l2)).proc⟩
          else wsDeliver false true (buf ++ t) proc (rest ++ l2)) := rfl
      have hunf2 : wsDeliver false true buf proc (CbEvent.cbChunk t :: rest) =
          (if MIN_CHUNK_SIZE ≤ (buf ++ t).length then
            ⟨sendToClient false true (ServerMsg.chunk (buf ++ t)) ++
              (wsDeliver false true [] proc rest).msgs,
             (wsDeliver false true [] proc rest).buf,
             (wsDeliver false true [] proc rest).proc⟩
          else wsDeliver false true (buf ++ t) proc rest) := rfl
      show wsDeliver false true buf proc (CbEvent.cbChunk t :: (rest ++ l2)) = _
      rw [hunf1, hunf2]
      by_cases hlen : MIN_CHUNK_SIZE ≤ (buf ++ t).length
      · rw [if_pos hlen, if_pos hlen, ih]
        simp
      · rw [if_neg hlen, if_neg hlen, ih]
    | cbError m => simp [wsDeliver, ih]
    | cbEnd => simp [wsDeliver, ih]

theorem countP_all_chunk (ms : List ServerMsg) (h : ms.all isChunkMsg = true) :
    ms.countP isIdleMsg = 0 ∧ ms.countP isErrorMsg = 0 ∧ ms.countP isFullMsg = 0 := by
  induction ms with
  | nil => exact ⟨rfl, rfl, rfl⟩
  | cons m ms ih =>
    simp only [List.all_cons, Bool.and_eq_true] at h
    obtain ⟨h1, h2⟩ := h
    obtain ⟨i1, i2, i3⟩ := ih h2
    cases m with
    | chunk t => simp [List.countP_cons, isIdleMsg, isErrorMsg, isFullMsg, i1, i2, i3]
    | processing => simp [isChunkMsg] at h1
    | fullResponse t => simp [isChunkMsg] at h1
    | error m2 => simp [isChunkMsg] at h1
    | idle => simp [isChunkMsg] at h1

theorem parseResponse_eq (s : List Char) :
    parseResponse s =
      (match extractTag (trimL s) with
      | some (pre, w) =>
        if lowerL w ∈ EMOTION_KEYWORDS then ⟨trimL pre, lowerL w⟩
        else ⟨trimL s, "neutral".data⟩
      | none => ⟨trimL s, "neutral".data⟩) := rfl

/-! ### Claim theorems -/

/-- C3 (counterexample to the case-insensitivity rider): the input
`"hi[EMOTION:happy]"` is, case-insensitively, exactly a text followed by
a trailing emotion tag with the valid keyword `happy` (lowercasing the
input yields a well-formed trailing tag), yet `parseResponse` leaves the
text untouched and returns `neutral`: the regex has no `i` flag, so the
literal `[emotion:` is matched case-sensitively and only the captured
keyword is lowercased. -/
theorem c3_counterexample :
    TagDecomp (trimL (lowerL "hi[EMOTION:happy]".data)) "hi".data "happy".data ∧
    parseResponse "hi[EMOTION:happy]".data =
      ⟨"hi[EMOTION:happy]".data, "neutral".data⟩ ∧
    "hi[EMOTION:happy]".data ≠ ("hi".data : List Char) := by
  refine ⟨by decide, by decide, by decide⟩

/-- C3 (amended): for every input whose trimmed form ends with the
literal tag `[emotion:<word>]` (the `[emotion:` literal in this exact
lowercase spelling; only the keyword is case-insensitive), with the
lowercased keyword in the closed set, `parseResponse` strips the tag and
surrounding whitespace from the display text and returns the lowercased
keyword as the emotion. -/
theorem c3_valid_trailing_tag_parsed (s pre w : List Char)
    (hdec : TagDecomp (trimL s) pre w)
    (hmem : lowerL w ∈ EMOTION_KEYWORDS) :
    parseResponse s = ⟨trimL pre, lowerL w⟩ := by
  rw [parseResponse_eq, extractTag_eq_of_decomp (trimL s) pre w hdec]
  simp [hmem]

/-- C3 witness: `"Hello there[emotion:happy]"` parses to
`{text: "Hello there", emotion: "happy"}`. -/
theorem c3_valid_trailing_tag_parsed_witness :
    parseResponse "Hello there[emotion:happy]".data =
      ⟨"Hello there".data, "happy".data⟩ := by
  have h := c3_valid_trailing_tag_parsed "Hello there[emotion:happy]".data
    "Hello there".data "happy".data (by decide) (by decide)
  exact h

/-- C4 (counterexample): the input `" hi "` has no trailing emotion tag,
so the claim says the parser returns the input string unchanged; the
code returns `fullText.trim()`, i.e. `"hi"`, not `" hi "`. -/
theorem c4_counterexample :
    parseResponse " hi ".data = ⟨"hi".data, "neutral".data⟩ ∧
    " hi ".data ≠ ("hi".data : List Char) := by
  refine ⟨by decide, by decide⟩

/-- C4 (amended): for every input with no trailing `[emotion:<word>]`
tag on its trimmed form, or whose trailing tag carries a keyword outside
the closed set, `parseResponse` returns the *trimmed* input (tag left in
place when present) and emotion `neutral`. -/
theorem c4_invalid_tag_neutral (s : List Char)
    (h : ∀ pre w, TagDecomp (trimL s) pre w → lowerL w ∉ EMOTION_KEYWORDS) :
    parseResponse s = ⟨trimL s, "neutral".data⟩ := by
  rw [parseResponse_eq]
  cases hx : extractTag (trimL s) with
  | none => rfl
  | some pw =>
    obtain ⟨p1, p2⟩ := pw
    have hd := extractTag_sound (trimL s) p1 p2 hx
    have hnot := h p1 p2 hd
    simp [hnot]

/-- C4 witness: `"ok[emotion:xyz]"` carries an unknown keyword; the text
comes back trimmed-but-otherwise-unchanged with the tag in place, and
the emotion defaults to `neutral`. -/
theorem c4_invalid_tag_neutral_witness :
    parseResponse "ok[emotion:xyz]".data =
      ⟨"ok[emotion:xyz]".data, "neutral".data⟩ := by
  have h := c4_invalid_tag_neutral "ok[emotion:xyz]".data ?_
  · simpa using h
  · intro pre w hd
    have h1 := extractTag_eq_of_decomp _ pre w hd
    have h2 : extractTag (trimL "ok[emotion:xyz]".data) =
        some ("ok".data, "xyz".data) := by decide
    rw [h2] at h1
    have h3 := Option.some.inj h1
    have hw : w = "xyz".data := (congrArg Prod.snd h3).symm
    subst hw
    decide

/-- C5 (confirmed): an inbound chat frame arriving while
`isAIProcessing` is true is rejected at once with the busy error; no
upstream attempt is made (attempt count 0) and the per-connection state
is returned unchanged — whatever the upstream environment, the JSON
oracle, the configuration, or the buffered text. -/
theorem c5_busy_rejection (cfg : Bool) (j : JsonOracle) (env : Nat → AttemptSpec)
    (buf : List Char) :
    wsOnMessage cfg j env ⟨false, true, true, buf⟩ .chat =
      (⟨false, true, true, buf⟩, [ServerMsg.error busyMsg], 0) := rfl

/-- C6 (confirmed): once the connection is marked closed, any outbound
emission attempt produces zero `ws.send` calls — a single `sendToClient`
of any message, and likewise a whole run of AI callbacks (chunks,
errors, end), which also leaves the rolling buffer untouched (nothing is
buffered for later). -/
theorem c6_closed_drops_sends (ready : Bool) (m : ServerMsg)
    (evs : List CbEvent) (buf : List Char) (proc : Bool) :
    sendToClient true ready m = [] ∧
    wsDeliver true ready buf proc evs = ⟨[], buf, proc⟩ :=
  ⟨rfl, wsDeliver_closed ready evs buf proc⟩

/-- C7 (confirmed): chunk-boundary independence of the upstream stream
reader.  Feeding the reads one at a time produces exactly the same
event sequence (token deltas, `[DONE]` signals, embedded-error abort)
as feeding the concatenation of all reads at once: a partial line is
never parsed before its newline arrives, and the trailing fragment of
one read is carried into the next. -/
theorem c7_chunk_boundary_independence (j : JsonOracle) (buf c : List Char)
    (cs : List (List Char)) :
    sseRun j buf (c :: cs) = sseRun j buf [c ++ cs.flatten] :=
  sseRun_flatten j cs buf c

/-- C8 (counterexample): on `processing` the character queue is *not*
reset — `stopAnimation` only clears the two timeouts, and nothing in the
`processing` branch clears `characterQueueRef`, so a leftover queued
character survives into the new turn. -/
theorem c8_counterexample :
    (handleWebSocketMessage 7 ⟨none, [], false, false, ['x'], false, false, []⟩
      ServerMsg.processing).queue = ['x'] ∧
    (['x'] : List Char) ≠ [] := by
  refine ⟨rfl, by decide⟩

/-- C8 (amended): on `processing` the client coordinator sets
`isBotProcessing`, clears `isStreamComplete` and the accumulator,
appends a fresh placeholder message, installs the fresh `messageId`,
and (re)starts the pacing loop — but leaves the character queue exactly
as it was. -/
theorem c8_processing_reset (st : PlaybackState) (fresh : Nat) :
    handleWebSocketMessage fresh st ServerMsg.processing =
      { st with isBotProcessing := true, isStreamComplete := false, accumulated := [], chatLog := st.chatLog ++ [(fresh, [])], messageId := some fresh, animScheduled := true, finalScheduled := false } := rfl

/-- C9 (counterexample): a closure with code 1005 ("no status received",
e.g. a dropped transport) is not an explicit local disconnect — manual
`disconnect` closes with code 1000 — yet the `onclose` handler schedules
no reconnect attempt for it, refuting "any close reason other than an
explicit local disconnect schedules exactly one reconnect attempt". -/
theorem c9_counterexample :
    (mgrOnClose 1005 ⟨true, true, false⟩).2 = [] ∧
    (1005 : Nat) ≠ 1000 ∧
    (mgrDisconnect ⟨true, true, false⟩).2 = some 1000 := by
  refine ⟨rfl, by decide, rfl⟩

/-- C9 (amended): the `onclose` handler schedules exactly one reconnect
attempt, after the fixed 5000 ms delay, iff the close code is neither
1000 (the code used by the explicit local `disconnect`) nor 1005; a
manual disconnect clears any pending reconnect timer and closes with
code 1000, whose close event schedules nothing. -/
theorem c9_reconnect_policy (st : MgrState) (code : Nat) :
    ((mgrOnClose code st).2 =
      if code ≠ 1000 ∧ code ≠ 1005 then [RECONNECT_DELAY_MS] else []) ∧
    (mgrDisconnect st).1.reconnectScheduled = false ∧
    (mgrOnClose 1000 (mgrDisconnect st).1).2 = [] ∧
    (mgrDisconnect st).2 = (if st.wsPresent then some 1000 else none) := by
  refine ⟨?_, rfl, rfl, rfl⟩
  by_cases h : code ≠ 1000 ∧ code ≠ 1005 <;> simp [mgrOnClose, h]

/-- C10 (confirmed): when the accumulated response is the empty string
at the delayed finalization check, JavaScript truthiness makes
`finalizeAnimation` skip `onAnimationComplete` entirely: the timers are
cleared, but the `messageId` is not cleared, `isBotProcessing` is not
reset, and neither speech nor the emote/animation trigger fires. -/
theorem c10_empty_response_skips_completion
    (emoteOf : List Char → Option Nat) (mid : Option Nat)
    (isc proc anim fin : Bool) (queue : List Char)
    (log : List (Nat × List Char)) :
    finalizeAnimation emoteOf ⟨mid, [], isc, proc, queue, anim, fin, log⟩ =
      (⟨mid, [], isc, proc, queue, false, false, log⟩, []) := by
  cases mid <;> rfl

/-- C2 (counterexample): (a) with configuration missing, the call
surfaces a terminal error after **zero** HTTP attempts, not "exactly 1
attempt"; (b) with an embedded error object in the first attempt's
stream — an attempt that got a well-formed HTTP response, neither 5xx
nor transport failure — the loop still issues all 3 HTTP attempts,
refuting "an attempt is retried only when it failed with an HTTP 5xx
status or with no response received". -/
theorem c2_counterexample :
    (callExternalAIServiceStream false jNull envOkEmpty).attempts = 0 ∧
    (callExternalAIServiceStream false jNull envOkEmpty).events =
      [CbEvent.cbError cfgMsg, CbEvent.cbEnd] ∧
    (0 : Nat) ≠ 1 ∧
    (callExternalAIServiceStream true jBoom envEmbeddedErr).attempts = 3 ∧
    envEmbeddedErr 1 = .stream ["data: x\ndata: E\n".data] none := by
  refine ⟨rfl, rfl, by decide, by decide, rfl⟩

/-- C2 (amended): at most 3 HTTP attempts; every awaited retry delay is
the fixed 1000 ms; missing configuration is a terminal error before any
attempt (0 attempts, no delay); a first attempt failing non-retryably
(4xx or setup error) is terminal after exactly that 1 attempt with no
delay; and whenever a second attempt happens at all, the first attempt
either failed retryably (5xx / no response) or was a stream that did not
complete cleanly (embedded error object or an exception during
iteration) — in which case the loop re-issues the remaining attempts. -/
theorem c2_retry_policy (cfg : Bool) (j : JsonOracle) (env : Nat → AttemptSpec) :
    (callExternalAIServiceStream cfg j env).attempts ≤ MAX_RETRIES ∧
    (callExternalAIServiceStream cfg j env).delays.all
      (fun d => d = RETRY_DELAY_MS) = true ∧
    (cfg = false →
      callExternalAIServiceStream cfg j env = ⟨[.cbError cfgMsg, .cbEnd], 0, []⟩) ∧
    (∀ k, cfg = true → env 1 = .fail k → isRetryable k = false →
      callExternalAIServiceStream cfg j env =
        ⟨[.cbError (failMsg k), .cbEnd], 1, []⟩) ∧
    (cfg = true → 2 ≤ (callExternalAIServiceStream cfg j env).attempts →
      (∃ k, env 1 = .fail k ∧ isRetryable k = true) ∨
      (∃ chunks thrown, env 1 = .stream chunks thrown ∧
        (hasErr (sseRun j [] chunks) = true ∨ thrown ≠ none))) := by
  refine ⟨?_, ?_, ?_, ?_, ?_⟩
  · cases cfg with
    | false => simp [callExternalAIServiceStream]
    | true =>
      simpa [callExternalAIServiceStream] using
        loopGo_attempts_le j env MAX_RETRIES 1 false
  · cases cfg with
    | false => rfl
    | true =>
      simpa [callExternalAIServiceStream] using
        loopGo_delays_all j env MAX_RETRIES 1 false
  · intro h
    subst h
    rfl
  · intro k hc henv hk
    subst hc
    show loopGo j env 1 (2 + 1) false = _
    simp [loopGo, henv, hk]
  · intro hc h2
    subst hc
    have hunf : callExternalAIServiceStream true j env =
        loopGo j env 1 (2 + 1) false := rfl
    cases henv : env 1 with
    | fail k =>
      by_cases hk : isRetryable k = true
      · exact Or.inl ⟨k, rfl, hk⟩
      · rw [hunf] at h2
        simp [loopGo, henv, hk] at h2
    | stream chunks thrown =>
      refine Or.inr ⟨chunks, thrown, rfl, ?_⟩
      by_cases he : hasErr (sseRun j [] chunks) = true
      · exact Or.inl he
      · cases thrown with
        | some e => exact Or.inr (by simp)
        | none =>
          rw [hunf] at h2
          simp [loopGo, henv, he] at h2

/-- C2 witness: a single simulated non-retryable 400 response yields
exactly one upstream attempt, no delay, and an immediate terminal
error + end. -/
theorem c2_retry_policy_witness :
    callExternalAIServiceStream true jNull envHttp400 =
      ⟨[CbEvent.cbError (failMsg (.httpStatus 400 "Bad Request")), CbEvent.cbEnd],
        1, []⟩ :=
  (c2_retry_policy true jNull envHttp400).2.2.2.1
    (.httpStatus 400 "Bad Request") rfl rfl (by decide)

/-- C1 (counterexample): on a successful stream the turn is
`[Processing, Idle]` — a `Processing` followed by **zero** of
`{FullResponse, Error}` (the `fullResponse` send is commented out in
`handleEnd`; success is delivered via `chunk`s only); and on a
non-retryable 400 failure the turn is `[Processing, Error, Idle, Idle]`
— **two** `Idle`s, because the service's `handleError` invokes `onError`
(the handler sends `error` + `idle`) and then unconditionally `onEnd`
(the handler sends `idle` again). -/
theorem c1_counterexample :
    (wsOnMessage true jNull envOkEmpty ⟨false, true, false, []⟩ .chat).2.1 =
      [ServerMsg.processing, ServerMsg.idle] ∧
    (wsOnMessage true jNull envHttp400 ⟨false, true, false, []⟩ .chat).2.1 =
      [ServerMsg.processing,
       ServerMsg.error ("AI Error: " ++ failMsg (.httpStatus 400 "Bad Request")),
       ServerMsg.idle, ServerMsg.idle] := by
  refine ⟨by decide, by decide⟩

/-- C1 (amended): for every chat turn started from an idle session on an
open connection — whatever the configuration, JSON oracle, upstream
environment and buffered text — the emitted sequence is a `Processing`,
then a middle section, then a terminal `Idle`.  No `FullResponse` is
ever emitted.  On the success path the middle section contains no
`Error` and no `Idle` (chunks only, total: exactly one `Idle`); on every
failure path it contains exactly one `Error` and exactly one further
`Idle` (total: one `Error`, two `Idle`s). -/
theorem c1_processing_terminal_idle (cfg : Bool) (j : JsonOracle)
    (env : Nat → AttemptSpec) (buf : List Char) :
    ∃ mid : List ServerMsg,
      (wsOnMessage cfg j env ⟨false, true, false, buf⟩ .chat).2.1 =
        ServerMsg.processing :: mid ++ [ServerMsg.idle] ∧
      (ServerMsg.processing :: mid ++ [ServerMsg.idle]).countP isFullMsg = 0 ∧
      ((mid.countP isErrorMsg = 0 ∧ mid.countP isIdleMsg = 0) ∨
       (mid.countP isErrorMsg = 1 ∧ mid.countP isIdleMsg = 1)) := by
  have hturn : (wsOnMessage cfg j env ⟨false, true, false, buf⟩ .chat).2.1 =
      ServerMsg.processing ::
        (wsDeliver false true buf true
          (callExternalAIServiceStream cfg j env).events).msgs := rfl
  rcases callStream_shape cfg j env with ⟨ts, hts⟩ | ⟨ts, m, hts⟩
  · obtain ⟨ms, buf2, hms, hall⟩ := wsDeliver_chunks ts buf true
    have hdel : (wsDeliver false true buf true
        (callExternalAIServiceStream cfg j env).events).msgs =
        ms ++ ((if buf2.length > 0 then [ServerMsg.chunk buf2] else []) ++
          [ServerMsg.idle]) := by
      rw [hts, wsDeliver_append (ts.map CbEvent.cbChunk) [CbEvent.cbEnd] buf true,
        hms]
      simp [wsDeliver_end]
    have hcnt := countP_all_chunk ms hall
    refine ⟨ms ++ (if buf2.length > 0 then [ServerMsg.chunk buf2] else []),
      ?_, ?_, Or.inl ⟨?_, ?_⟩⟩
    · rw [hturn, hdel]
      simp
    · by_cases h : buf2.length > 0 <;>
        simp [h, List.countP_cons, List.countP_append, isFullMsg, hcnt.2.2]
    · by_cases h : buf2.length > 0 <;>
        simp [h, List.countP_cons, List.countP_append, isErrorMsg, hcnt.2.1]
    · by_cases h : buf2.length > 0 <;>
        simp [h, List.countP_cons, List.countP_append, isIdleMsg, hcnt.1]
  · obtain ⟨ms, buf2, hms, hall⟩ := wsDeliver_chunks ts buf true
    have hdel : (wsDeliver false true buf true
        (callExternalAIServiceStream cfg j env).events).msgs =
        ms ++ ((if buf2.length > 0 then [ServerMsg.chunk buf2] else []) ++
          [ServerMsg.error ("AI Error: " ++ m), ServerMsg.idle, ServerMsg.idle]) := by
      rw [hts,
        wsDeliver_append (ts.map CbEvent.cbChunk) [CbEvent.cbError m, CbEvent.cbEnd]
          buf true, hms]
      simp [wsDeliver_err_end]
    have hcnt := countP_all_chunk ms hall
    refine ⟨ms ++ ((if buf2.length > 0 then [ServerMsg.chunk buf2] else []) ++
      [ServerMsg.error ("AI Error: " ++ m), ServerMsg.idle]), ?_, ?_, Or.inr ⟨?_, ?_⟩⟩
    · rw [hturn, hdel]
      simp
    · by_cases h : buf2.length > 0 <;>
        simp [h, List.countP_cons, List.countP_append, isFullMsg, hcnt.2.2]
    · by_cases h : buf2.length > 0 <;>
        simp [h, List.countP_cons, List.countP_append, isErrorMsg, isIdleMsg,
          hcnt.2.1]
    · by_cases h : buf2.length > 0 <;>
        simp [h, List.countP_cons, List.countP_append, isErrorMsg, isIdleMsg,
          hcnt.1]
